import Mathlib

namespace BiometricEvaluation

/-!
Verification of the BiometricEvaluation record-storage subsystem
(`IO::DBRecordStore`, `be_io_dbrecstore.h` / `be_io.h`).

The excerpt under `src/` contains the class declarations only; the bodies of
`insert`, `read`, `remove`, `replace`, `length`, `sequence`, `setCursorAtKey`,
`insertRecordSegments`, `readRecordSegments` and `removeRecordSegments` are
modelled from the specification (spec.md sections 3, 4.1, 4.2, 4.3 and 7).
The open-mode constants come directly from `src/common/src/include/be_io.h`.

Modelling choices:
  * bytes are `List Nat` (opaque byte sequences);
  * the two backend databases (Primary, Subordinate) are association lists
    whose `put` is an upsert, matching an embedded key-value engine;
  * the Subordinate key derived from a logical key and a 1-based segment
    index is modelled as the pair `(key, index)`;
  * a segmented write / remove is a fold over an explicit list of backend
    operations (`Put` / `Del`), so that states reached by interrupting the
    operation between backend calls are expressible as folds of prefixes.
-/

deriving instance DecidableEq for Except

/-- From `be_io.h`: `static const uint8_t READWRITE = 0;`. -/
def READWRITE : Nat := 0

/-- From `be_io.h`: `static const uint8_t READONLY = 1;`. -/
def READONLY : Nat := 1

/-- Error kinds of the record-store design (spec.md section 7). -/
inductive RSError where
  | AlreadyExists
  | NotFound
  | ReadOnlyViolation
  | StorageFailure
  | Corruption
  | EndOfSequence
  | InvalidArgument
deriving DecidableEq, Repr

/-! ### Backend association lists

The embedded key-value engine backing each of the Primary and Subordinate
databases: `alGet` is `get`, `alPut` is `put` (an upsert), `alDel` is
`delete`.  Key order of the list is the backend's natural key order. -/

def alGet {κ β : Type} [DecidableEq κ] (k : κ) : List (κ × β) → Option β
  | [] => none
  | (k', v) :: rest => if k' = k then some v else alGet k rest

def alPut {κ β : Type} [DecidableEq κ] (k : κ) (v : β) : List (κ × β) → List (κ × β)
  | [] => [(k, v)]
  | (k', v') :: rest => if k' = k then (k, v) :: rest else (k', v') :: alPut k v rest

def alDel {κ β : Type} [DecidableEq κ] (k : κ) : List (κ × β) → List (κ × β)
  | [] => []
  | (k', v') :: rest => if k' = k then alDel k rest else (k', v') :: alDel k rest

/-! ### Segmentation: chunking a byte sequence

Modelled from the spec (section 4.1, `insertRecordSegments`): a value longer
than the segment threshold is split into segments, each of size `threshold`
except possibly the last, and `segmentCount = ceil(len / threshold)`. -/

def chunks (t : Nat) (v : List Nat) : List (List Nat) :=
  if h : v = [] ∨ t = 0 then []
  else
    have : (v.drop t).length < v.length := by
      rcases not_or.mp h with ⟨hv, ht⟩
      have hlen : 0 < v.length := List.length_pos.mpr hv
      simp only [List.length_drop]
      omega
    v.take t :: chunks t (v.drop t)
termination_by v.length

/-! ### The DBRecordStore state

Modelled from the spec (sections 3 and 4): the Primary database holds, per
logical key, either the whole small value or a fixed header recording the
total logical length and the segment count; the Subordinate database holds
the segment payloads keyed by (logical key, 1-based segment index).  The
cursor state machine is spec section 4.3. -/

/-- A Primary-database entry (spec section 3, "Primary Entry"). -/
inductive PEntry where
  | whole (v : List Nat)
  | header (len : Nat) (segCount : Nat)
deriving DecidableEq, Repr

/-- Cursor state machine states (spec section 4.3). -/
inductive CursorState where
  | unpositioned
  | atKey (k : String)
  | exhausted
deriving DecidableEq, Repr

/-- The state of one open `DBRecordStore`: the two backend databases
(`_dbP`, `_dbS` in `be_io_dbrecstore.h`), the open mode, and the cursor. -/
structure DBRecordStore where
  primary : List (String × PEntry)
  sub : List ((String × Nat) × List Nat)
  mode : Nat
  cursor : CursorState
deriving DecidableEq, Repr

/-- One backend `put` performed by a segmented write. -/
inductive Put where
  | prim (k : String) (e : PEntry)
  | sub (k : String) (i : Nat) (seg : List Nat)
deriving DecidableEq, Repr

def applyPut (s : DBRecordStore) : Put → DBRecordStore
  | .prim k e => { s with primary := alPut k e s.primary }
  | .sub k i seg => { s with sub := alPut (k, i) seg s.sub }

/-- The backend puts of a list of segments, indices `i+1`, `i+2`, ... -/
def segPutsFrom (k : String) : Nat → List (List Nat) → List Put
  | _, [] => []
  | i, c :: rest => Put.sub k (i + 1) c :: segPutsFrom k (i + 1) rest

/-- Number of segment entries a value of this length produces (0 when the
value is stored unsegmented). -/
def numSegs (t : Nat) (v : List Nat) : Nat :=
  if v.length ≤ t then 0 else (v.length + t - 1) / t

/-- The Primary entry a value is stored under (spec section 4.1). -/
def pentryOf (t : Nat) (v : List Nat) : PEntry :=
  if v.length ≤ t then .whole v else .header v.length ((v.length + t - 1) / t)

/-- Modelled from the spec: `DBRecordStore::insertRecordSegments` (section
4.1 write path) as the ordered list of backend puts it performs.  A small
value is one Primary put; a large value writes the segments to the
Subordinate store first and the header to the Primary store last. -/
def insertPuts (t : Nat) (k : String) (v : List Nat) : List Put :=
  if v.length ≤ t then [Put.prim k (.whole v)]
  else segPutsFrom k 0 (chunks t v) ++
    [Put.prim k (.header v.length ((v.length + t - 1) / t))]

/-- Modelled from the spec: the state after `insertRecordSegments` runs to
completion. -/
def insertRecordSegments (t : Nat) (k : String) (v : List Nat)
    (s : DBRecordStore) : DBRecordStore :=
  (insertPuts t k v).foldl applyPut s

/-- A state reached when `insertRecordSegments` is interrupted after its
first `i` backend puts. -/
def insertPrefixState (t : Nat) (k : String) (v : List Nat)
    (s : DBRecordStore) (i : Nat) : DBRecordStore :=
  ((insertPuts t k v).take i).foldl applyPut s

/-- Read Subordinate segments `1..n` of a key in index order and
concatenate; `none` when an expected segment is missing. -/
def readSegs (sub : List ((String × Nat) × List Nat)) (k : String) :
    Nat → Option (List Nat)
  | 0 => some []
  | n + 1 =>
    match readSegs sub k n, alGet (k, n + 1) sub with
    | some acc, some seg => some (acc ++ seg)
    | _, _ => none

/-- Modelled from the spec: `DBRecordStore::readRecordSegments` (section
4.1 read path).  Fetch the Primary entry; a whole value is returned
directly, a header drives reading segments `1..segCount` whose
concatenation must match the declared logical length. -/
def readRecordSegments (k : String) (primary : List (String × PEntry))
    (sub : List ((String × Nat) × List Nat)) : Except RSError (List Nat) :=
  match alGet k primary with
  | none => .error .NotFound
  | some (.whole v) => .ok v
  | some (.header len n) =>
    match readSegs sub k n with
    | none => .error .Corruption
    | some v => if v.length = len then .ok v else .error .Corruption

/-- One backend `delete` performed by a segmented remove. -/
inductive Del where
  | prim (k : String)
  | sub (k : String) (i : Nat)
deriving DecidableEq, Repr

def applyDel (s : DBRecordStore) : Del → DBRecordStore
  | .prim k => { s with primary := alDel k s.primary }
  | .sub k i => { s with sub := alDel (k, i) s.sub }

def Del.isSubDel : Del → Bool
  | .prim _ => false
  | .sub _ _ => true

def Put.isSubPut : Put → Bool
  | .prim _ _ => false
  | .sub _ _ _ => true

/-- The Subordinate segment indices currently stored for a logical key. -/
def subKeysOf (k : String) (sub : List ((String × Nat) × List Nat)) :
    List Nat :=
  (sub.filter (fun e => decide (e.1.1 = k))).map (fun e => e.1.2)

/-- Modelled from the spec: `DBRecordStore::removeRecordSegments` (section
4.1 remove path) as the ordered list of backend deletes it performs: all
Subordinate segments of the key first, then the Primary entry last. -/
def removeDels (k : String) (s : DBRecordStore) : List Del :=
  (subKeysOf k s.sub).map (fun i => Del.sub k i) ++ [Del.prim k]

/-- Modelled from the spec: the state after `removeRecordSegments`. -/
def removeRecordSegments (k : String) (s : DBRecordStore) : DBRecordStore :=
  (removeDels k s).foldl applyDel s

/-- Number of Subordinate segment entries stored for a logical key. -/
def subCount (k : String) (sub : List ((String × Nat) × List Nat)) : Nat :=
  (sub.filter (fun e => decide (e.1.1 = k))).length

/-! ### The RecordStore façade operations

The public operations of `DBRecordStore` (declared in
`be_io_dbrecstore.h`, behavior modelled from spec sections 4.2 and 4.3).
Each mutating operation returns the outcome together with the resulting
store state; an error leaves the state unchanged. -/

/-- Modelled from the spec: the cursor-direction constant
`BE_RECSTORE_SEQ_NEXT` declared in `be_io_recordstore.h`, which is not in
the excerpt; only `NEXT` is exercised by this design, so its numeric value
is immaterial here. -/
def BE_RECSTORE_SEQ_NEXT : Nat := 2

/-- The entry following the first entry with key `k`, in backend key
order. -/
def nextAfter (k : String) : List (String × PEntry) → Option (String × PEntry)
  | [] => none
  | (k', _) :: rest => if k' = k then rest.head? else nextAfter k rest

/-- Modelled from the spec: the cursor transition and result of one
`sequence(NEXT)` call (spec section 4.3), over the Primary key order; each
successful call materializes the full logical value through the
segmentation read path. -/
def sequenceStep (primary : List (String × PEntry))
    (sub : List ((String × Nat) × List Nat)) (cursor : CursorState)
    (wantData : Bool) :
    Except RSError (String × Nat × Option (List Nat)) × CursorState :=
  let emit : String → Except RSError (String × Nat × Option (List Nat)) × CursorState :=
    fun k =>
      match readRecordSegments k primary sub with
      | .error e => (.error e, cursor)
      | .ok v => (.ok (k, v.length, if wantData then some v else none), .atKey k)
  match cursor with
  | .exhausted => (.error .EndOfSequence, .exhausted)
  | .unpositioned =>
    match primary.head? with
    | none => (.error .EndOfSequence, .exhausted)
    | some (k, _) => emit k
  | .atKey k =>
    match nextAfter k primary with
    | none => (.error .EndOfSequence, .exhausted)
    | some (k', _) => emit k'

/-- `DBRecordStore::sequence(key, data = nullptr, cursor =
BE_RECSTORE_SEQ_NEXT)`: the default-argument values are those of the
declaration in `be_io_dbrecstore.h`; a null `data` pointer is modelled as
`wantData = false`, in which case the returned record bytes are not
materialized in the result.  The returned `Nat` is the record's logical
length (the C++ return value).  A direction other than `NEXT` is modelled
from the spec as `InvalidArgument` (only `NEXT` is exercised). -/
def DBRecordStore.sequence (s : DBRecordStore) (wantData : Bool := false)
    (cursor : Nat := BE_RECSTORE_SEQ_NEXT) :
    Except RSError (String × Nat × Option (List Nat)) × DBRecordStore :=
  if cursor = BE_RECSTORE_SEQ_NEXT then
    let r := sequenceStep s.primary s.sub s.cursor wantData
    (r.1, { s with cursor := r.2 })
  else (.error .InvalidArgument, s)

/-- `DBRecordStore::read`: modelled from the spec (section 4.2). -/
def DBRecordStore.read (s : DBRecordStore) (k : String) :
    Except RSError (List Nat) :=
  readRecordSegments k s.primary s.sub

/-- `DBRecordStore::length`: modelled from the spec (sections 4.1, 4.2):
the logical length, from the header without reading segment payloads. -/
def DBRecordStore.length (s : DBRecordStore) (k : String) :
    Except RSError Nat :=
  match alGet k s.primary with
  | none => .error .NotFound
  | some (.whole v) => .ok v.length
  | some (.header len _) => .ok len

/-- `DBRecordStore::sync`: modelled from the spec (section 4.2): rejected
on a read-only store before touching the backend. -/
def DBRecordStore.sync (s : DBRecordStore) : Except RSError Unit :=
  if s.mode = READONLY then .error .ReadOnlyViolation else .ok ()

/-- `DBRecordStore::insert`: modelled from the spec (section 4.2):
read-only check first, then the duplicate-key check, then the segmented
write path. -/
def DBRecordStore.insert (s : DBRecordStore) (t : Nat) (k : String)
    (v : List Nat) : Except RSError Unit × DBRecordStore :=
  if s.mode = READONLY then (.error .ReadOnlyViolation, s)
  else
    match alGet k s.primary with
    | some _ => (.error .AlreadyExists, s)
    | none => (.ok (), insertRecordSegments t k v s)

/-- `DBRecordStore::remove`: modelled from the spec (section 4.2):
read-only check first, then the presence check, then the segmented
remove. -/
def DBRecordStore.remove (s : DBRecordStore) (k : String) :
    Except RSError Unit × DBRecordStore :=
  if s.mode = READONLY then (.error .ReadOnlyViolation, s)
  else
    match alGet k s.primary with
    | none => (.error .NotFound, s)
    | some _ => (.ok (), removeRecordSegments k s)

/-- `DBRecordStore::replace`: modelled from the spec (section 4.2):
fails with NotFound when the key is absent, otherwise remove-then-write. -/
def DBRecordStore.replace (s : DBRecordStore) (t : Nat) (k : String)
    (v : List Nat) : Except RSError Unit × DBRecordStore :=
  if s.mode = READONLY then (.error .ReadOnlyViolation, s)
  else
    match alGet k s.primary with
    | none => (.error .NotFound, s)
    | some _ => (.ok (), insertRecordSegments t k v (removeRecordSegments k s))

/-- `DBRecordStore::setCursorAtKey`: modelled from the spec (section 4.3):
fails with NotFound when the key is absent, otherwise marks the key as
last visited. -/
def DBRecordStore.setCursorAtKey (s : DBRecordStore) (k : String) :
    Except RSError Unit × DBRecordStore :=
  match alGet k s.primary with
  | none => (.error .NotFound, s)
  | some _ => (.ok (), { s with cursor := .atKey k })

/-- The empty store, freshly created read-write. -/
def emptyStore : DBRecordStore :=
  { primary := [], sub := [], mode := READWRITE, cursor := .unpositioned }

/-- A one-record store opened read-only (used as a concrete instance). -/
def roStore : DBRecordStore :=
  { primary := [("k", .whole [1, 2])], sub := [], mode := READONLY,
    cursor := .unpositioned }

/-- A one-record store opened read-write (used as a concrete instance). -/
def seqStore : DBRecordStore :=
  { primary := [("a", .whole [7, 8])], sub := [], mode := READWRITE,
    cursor := .unpositioned }

/-- A store holding one segmented record (used as a concrete instance). -/
def segStore : DBRecordStore :=
  { primary := [("k", .header 5 3)],
    sub := [(("k", 1), [1, 2]), (("k", 2), [3, 4]), (("k", 3), [5])],
    mode := READWRITE, cursor := .unpositioned }

/-- A three-record store (used as a concrete instance). -/
def threeStore : DBRecordStore :=
  { primary := [("a", .whole [1]), ("b", .whole [2, 3]), ("c", .whole [4])],
    sub := [], mode := READWRITE, cursor := .unpositioned }

/-- The store obtained by inserting three keys into the empty store. -/
def insThree (t : Nat) (ka kb kc : String) (va vb vc : List Nat) :
    DBRecordStore :=
  (((emptyStore.insert t ka va).2.insert t kb vb).2.insert t kc vc).2

theorem alGet_alPut_self {κ β : Type} [DecidableEq κ] (k : κ) (v : β) (l : List (κ × β)) :
    alGet k (alPut k v l) = some v := by
  induction l with
  | nil => simp [alGet, alPut]
  | cons p rest ih =>
    by_cases h : p.1 = k <;> simp [alGet, alPut, h, ih]

theorem alGet_alPut_ne {κ β : Type} [DecidableEq κ] {k k' : κ} (v : β) (l : List (κ × β))
    (h : k ≠ k') : alGet k' (alPut k v l) = alGet k' l := by
  induction l with
  | nil => simp [alGet, alPut, h]
  | cons p rest ih =>
    by_cases h1 : p.1 = k
    · simp [alGet, alPut, h1, h]
    · by_cases h2 : p.1 = k'
      · simp [alGet, alPut, h1, h2, Ne.symm h]
      · simp [alGet, alPut, h1, h2, ih]

theorem alPut_of_absent {κ β : Type} [DecidableEq κ] {k : κ} (v : β) {l : List (κ × β)}
    (h : alGet k l = none) : alPut k v l = l ++ [(k, v)] := by
  induction l with
  | nil => simp [alPut]
  | cons p rest ih =>
    by_cases h1 : p.1 = k
    · simp [alGet, h1] at h
    · simp [alGet, h1] at h
      simp [alPut, h1, ih h]

theorem alGet_alDel {κ β : Type} [DecidableEq κ] (k k' : κ) (l : List (κ × β)) :
    alGet k' (alDel k l) = if k' = k then none else alGet k' l := by
  induction l with
  | nil => simp [alGet, alDel]
  | cons p rest ih =>
    by_cases h1 : p.1 = k
    · by_cases h2 : k' = k
      · subst h2
        simp [alDel, h1, ih]
      · have h4 : ¬ k = k' := fun hh => h2 hh.symm
        simp [alDel, alGet, h1, h2, h4, ih]
    · by_cases h2 : p.1 = k'
      · have h3 : ¬ k' = k := fun hh => h1 (h2.trans hh)
        simp [alDel, alGet, h1, h2, h3]
      · simp [alDel, alGet, h1, h2, ih]

theorem alDel_eq_filter {κ β : Type} [DecidableEq κ] (k : κ) (l : List (κ × β)) :
    alDel k l = l.filter (fun e => decide ¬ (e.1 = k)) := by
  induction l with
  | nil => simp [alDel]
  | cons p rest ih =>
    by_cases h1 : p.1 = k <;> simp [alDel, h1, ih, List.filter]

theorem alDel_of_absent {κ β : Type} [DecidableEq κ] {k : κ} {l : List (κ × β)}
    (h : alGet k l = none) : alDel k l = l := by
  induction l with
  | nil => simp [alDel]
  | cons p rest ih =>
    by_cases h1 : p.1 = k
    · simp [alGet, h1] at h
    · simp [alGet, h1] at h
      simp [alDel, h1, ih h]

theorem alGet_append_of_none {κ β : Type} [DecidableEq κ] {k : κ} {l₁ : List (κ × β)}
    (l₂ : List (κ × β)) (h : alGet k l₁ = none) :
    alGet k (l₁ ++ l₂) = alGet k l₂ := by
  induction l₁ with
  | nil => simp
  | cons p rest ih =>
    by_cases h1 : p.1 = k
    · simp [alGet, h1] at h
    · simp [alGet, h1] at h ⊢
      exact ih h

theorem chunks_nil (t : Nat) : chunks t [] = [] := by
  simp [chunks]

theorem chunks_cons {t : Nat} {v : List Nat} (ht : 0 < t) (hv : v ≠ []) :
    chunks t v = v.take t :: chunks t (v.drop t) := by
  rw [chunks, dif_neg]
  push_neg
  exact ⟨hv, by omega⟩

theorem chunks_eq_nil_iff {t : Nat} (ht : 0 < t) (v : List Nat) :
    chunks t v = [] ↔ v = [] := by
  constructor
  · intro h
    by_contra hv
    rw [chunks_cons ht hv] at h
    exact List.cons_ne_nil _ _ h
  · intro h
    simp [h, chunks_nil]

theorem chunks_flatten {t : Nat} (ht : 0 < t) (v : List Nat) :
    (chunks t v).flatten = v := by
  by_cases hv : v = []
  · simp [hv, chunks_nil]
  · rw [chunks_cons ht hv]
    have : (v.drop t).length < v.length := by
      have hlen : 0 < v.length := List.length_pos.mpr hv
      simp only [List.length_drop]
      omega
    rw [List.flatten_cons, chunks_flatten ht (v.drop t), List.take_append_drop]
termination_by v.length

theorem chunks_length {t : Nat} (ht : 0 < t) (v : List Nat) :
    (chunks t v).length = (v.length + t - 1) / t := by
  by_cases hv : v = []
  · subst hv
    rw [chunks_nil]
    simp only [List.length_nil, Nat.zero_add]
    exact (Nat.div_eq_of_lt (by omega)).symm
  · rw [chunks_cons ht hv]
    have hlen : 0 < v.length := List.length_pos.mpr hv
    have hrec : (v.drop t).length < v.length := by
      simp only [List.length_drop]; omega
    rw [List.length_cons, chunks_length ht (v.drop t)]
    simp only [List.length_drop]
    rcases Nat.lt_or_ge t v.length with hlt | hge
    · have h1 : v.length - t + t - 1 = v.length - 1 := by omega
      have h2 : v.length + t - 1 = (v.length - 1) + t := by omega
      rw [h1, h2, Nat.add_div_right _ ht]
    · have h1 : (v.length - t + t - 1) / t = 0 := Nat.div_eq_of_lt (by omega)
      have h2 : (v.length + t - 1) / t = 1 :=
        Nat.div_eq_of_lt_le (by omega) (by omega)
      rw [h1, h2]
termination_by v.length

theorem chunks_size_le {t : Nat} (ht : 0 < t) (v : List Nat) :
    ∀ c ∈ chunks t v, c.length ≤ t := by
  by_cases hv : v = []
  · simp [hv, chunks_nil]
  · rw [chunks_cons ht hv]
    have hlen : 0 < v.length := List.length_pos.mpr hv
    have hrec : (v.drop t).length < v.length := by
      simp only [List.length_drop]; omega
    intro c hc
    rcases List.mem_cons.mp hc with h | h
    · subst h
      simp [List.length_take]
    · exact chunks_size_le ht (v.drop t) c h
termination_by v.length

theorem chunks_dropLast_size {t : Nat} (ht : 0 < t) (v : List Nat) :
    ∀ c ∈ (chunks t v).dropLast, c.length = t := by
  by_cases hv : v = []
  · simp [hv, chunks_nil]
  · rw [chunks_cons ht hv]
    have hlen : 0 < v.length := List.length_pos.mpr hv
    have hrec : (v.drop t).length < v.length := by
      simp only [List.length_drop]; omega
    intro c hc
    by_cases hrest : v.drop t = []
    · simp [hrest, chunks_nil] at hc
    · rw [List.dropLast_cons_of_ne_nil ((chunks_eq_nil_iff ht _).not.mpr hrest)] at hc
      rcases List.mem_cons.mp hc with h | h
      · subst h
        have : t ≤ v.length := by
          by_contra hcon
          exact hrest (List.drop_eq_nil_of_le (by omega))
        simp [List.length_take]
        omega
      · exact chunks_dropLast_size ht (v.drop t) c h
termination_by v.length

/-! ### Lemmas about the segmented write -/

theorem segfold_primary (k : String) (segs : List (List Nat)) :
    ∀ (i : Nat) (s : DBRecordStore),
      ((segPutsFrom k i segs).foldl applyPut s).primary = s.primary := by
  induction segs with
  | nil => intro i s; simp [segPutsFrom]
  | cons c rest ih =>
    intro i s
    simp only [segPutsFrom, List.foldl_cons, applyPut]
    rw [ih]

theorem segfold_mode (k : String) (segs : List (List Nat)) :
    ∀ (i : Nat) (s : DBRecordStore),
      ((segPutsFrom k i segs).foldl applyPut s).mode = s.mode := by
  induction segs with
  | nil => intro i s; simp [segPutsFrom]
  | cons c rest ih =>
    intro i s
    simp only [segPutsFrom, List.foldl_cons, applyPut]
    rw [ih]

theorem segfold_cursor (k : String) (segs : List (List Nat)) :
    ∀ (i : Nat) (s : DBRecordStore),
      ((segPutsFrom k i segs).foldl applyPut s).cursor = s.cursor := by
  induction segs with
  | nil => intro i s; simp [segPutsFrom]
  | cons c rest ih =>
    intro i s
    simp only [segPutsFrom, List.foldl_cons, applyPut]
    rw [ih]

theorem segfold_sub_get_lo (k : String) (segs : List (List Nat)) :
    ∀ (i : Nat) (s : DBRecordStore) (j : Nat), j ≤ i →
      alGet (k, j) ((segPutsFrom k i segs).foldl applyPut s).sub =
        alGet (k, j) s.sub := by
  induction segs with
  | nil => intro i s j _; simp [segPutsFrom]
  | cons c rest ih =>
    intro i s j hj
    simp only [segPutsFrom, List.foldl_cons, applyPut]
    rw [ih (i + 1) _ j (by omega)]
    exact alGet_alPut_ne _ _ (by simp; omega)

theorem segfold_sub_get_hi (k : String) (segs : List (List Nat)) :
    ∀ (i : Nat) (s : DBRecordStore) (j : Nat), i + segs.length < j →
      alGet (k, j) ((segPutsFrom k i segs).foldl applyPut s).sub =
        alGet (k, j) s.sub := by
  induction segs with
  | nil => intro i s j _; simp [segPutsFrom]
  | cons c rest ih =>
    intro i s j hj
    simp only [segPutsFrom, List.foldl_cons, applyPut]
    rw [ih (i + 1) _ j (by simp at hj ⊢; omega)]
    exact alGet_alPut_ne _ _ (by simp at hj ⊢; omega)

theorem segfold_sub_get_other {k k' : String} (hne : k' ≠ k)
    (segs : List (List Nat)) :
    ∀ (i : Nat) (s : DBRecordStore) (j : Nat),
      alGet (k', j) ((segPutsFrom k i segs).foldl applyPut s).sub =
        alGet (k', j) s.sub := by
  induction segs with
  | nil => intro i s j; simp [segPutsFrom]
  | cons c rest ih =>
    intro i s j
    simp only [segPutsFrom, List.foldl_cons, applyPut]
    rw [ih (i + 1) _ j]
    exact alGet_alPut_ne _ _ (by simp [Ne.symm hne])

theorem segfold_sub_get_in (k : String) (segs : List (List Nat)) :
    ∀ (i : Nat) (s : DBRecordStore) (j : Nat), i < j → j ≤ i + segs.length →
      alGet (k, j) ((segPutsFrom k i segs).foldl applyPut s).sub =
        segs[j - i - 1]? := by
  induction segs with
  | nil => intro i s j h1 h2; simp at h1 h2; omega
  | cons c rest ih =>
    intro i s j h1 h2
    simp only [segPutsFrom, List.foldl_cons, applyPut]
    by_cases hj : j = i + 1
    · subst hj
      rw [segfold_sub_get_lo k rest (i + 1) _ (i + 1) (by omega)]
      simp [alGet_alPut_self]
    · rw [ih (i + 1) _ j (by omega) (by simp at h2 ⊢; omega)]
      have h3 : j - i - 1 = (j - (i + 1) - 1) + 1 := by omega
      rw [h3]
      simp

/-! ### Lemmas about reading segments back -/

theorem readSegs_congr {sub1 sub2 : List ((String × Nat) × List Nat)}
    (k : String) (n : Nat)
    (h : ∀ j, 1 ≤ j → j ≤ n → alGet (k, j) sub1 = alGet (k, j) sub2) :
    readSegs sub1 k n = readSegs sub2 k n := by
  induction n with
  | zero => simp [readSegs]
  | succ m ih =>
    simp only [readSegs]
    rw [ih (fun j h1 h2 => h j h1 (by omega)), h (m + 1) (by omega) (by omega)]

theorem readSegs_eq (segs : List (List Nat))
    (sub : List ((String × Nat) × List Nat)) (k : String)
    (h : ∀ j, 1 ≤ j → j ≤ segs.length → alGet (k, j) sub = segs[j - 1]?) :
    ∀ m, m ≤ segs.length → readSegs sub k m = some (segs.take m).flatten := by
  intro m
  induction m with
  | zero => intro _; simp [readSegs]
  | succ p ih =>
    intro hm
    have hp : p < segs.length := by omega
    simp only [readSegs]
    rw [ih (by omega), h (p + 1) (by omega) (by omega)]
    have hg : segs[p + 1 - 1]? = some segs[p] := by
      simp [List.getElem?_eq_getElem hp]
    rw [hg, List.take_succ, List.flatten_append]
    simp [List.getElem?_eq_getElem hp]

/-! ### Lemmas about `insertRecordSegments` -/

theorem insertSegs_primary {t : Nat} {k : String} {v : List Nat}
    {s : DBRecordStore} (habs : alGet k s.primary = none) :
    (insertRecordSegments t k v s).primary = s.primary ++ [(k, pentryOf t v)] := by
  unfold insertRecordSegments insertPuts pentryOf
  by_cases hsmall : v.length ≤ t
  · simp only [hsmall, if_pos, List.foldl_cons, List.foldl_nil, applyPut]
    exact alPut_of_absent _ habs
  · simp only [hsmall, if_neg, List.foldl_append, List.foldl_cons, List.foldl_nil,
      applyPut, if_false]
    rw [alPut_of_absent _ (by rw [segfold_primary]; exact habs), segfold_primary]

theorem insertSegs_mode (t : Nat) (k : String) (v : List Nat)
    (s : DBRecordStore) :
    (insertRecordSegments t k v s).mode = s.mode := by
  unfold insertRecordSegments insertPuts
  by_cases hsmall : v.length ≤ t
  · simp [hsmall, applyPut]
  · simp only [hsmall, if_neg, List.foldl_append, List.foldl_cons, List.foldl_nil,
      applyPut, if_false]
    exact segfold_mode _ _ _ _

theorem insertSegs_cursor (t : Nat) (k : String) (v : List Nat)
    (s : DBRecordStore) :
    (insertRecordSegments t k v s).cursor = s.cursor := by
  unfold insertRecordSegments insertPuts
  by_cases hsmall : v.length ≤ t
  · simp [hsmall, applyPut]
  · simp only [hsmall, if_neg, List.foldl_append, List.foldl_cons, List.foldl_nil,
      applyPut, if_false]
    exact segfold_cursor _ _ _ _

theorem insertSegs_primary_frame {t : Nat} {k k' : String} (hne : k' ≠ k)
    (v : List Nat) (s : DBRecordStore) :
    alGet k' (insertRecordSegments t k v s).primary = alGet k' s.primary := by
  unfold insertRecordSegments insertPuts
  by_cases hsmall : v.length ≤ t
  · simp only [hsmall, if_pos, List.foldl_cons, List.foldl_nil, applyPut]
    exact alGet_alPut_ne _ _ (Ne.symm hne)
  · simp only [hsmall, if_neg, List.foldl_append, List.foldl_cons, List.foldl_nil,
      applyPut, if_false]
    rw [alGet_alPut_ne _ _ (Ne.symm hne), segfold_primary]

theorem insertSegs_sub_frame {t : Nat} {k k' : String} (hne : k' ≠ k)
    (v : List Nat) (s : DBRecordStore) (j : Nat) :
    alGet (k', j) (insertRecordSegments t k v s).sub = alGet (k', j) s.sub := by
  unfold insertRecordSegments insertPuts
  by_cases hsmall : v.length ≤ t
  · simp [hsmall, applyPut]
  · simp only [hsmall, if_neg, List.foldl_append, List.foldl_cons, List.foldl_nil,
      applyPut, if_false]
    exact segfold_sub_get_other hne _ _ _ _

theorem insertSegs_primary_large {t : Nat} {k : String} {v : List Nat}
    (hbig : ¬ v.length ≤ t) (s : DBRecordStore) :
    (insertRecordSegments t k v s).primary =
      alPut k (.header v.length ((v.length + t - 1) / t)) s.primary := by
  unfold insertRecordSegments insertPuts
  simp only [hbig, if_neg, List.foldl_append, List.foldl_cons, List.foldl_nil,
    applyPut, if_false]
  rw [segfold_primary]

theorem insertSegs_sub_large {t : Nat} {k : String} {v : List Nat}
    (hbig : ¬ v.length ≤ t) (s : DBRecordStore) :
    (insertRecordSegments t k v s).sub =
      ((segPutsFrom k 0 (chunks t v)).foldl applyPut s).sub := by
  unfold insertRecordSegments insertPuts
  simp only [hbig, if_neg, List.foldl_append, List.foldl_cons, List.foldl_nil,
    applyPut, if_false]

theorem readRecordSegments_insert {t : Nat} (ht : 0 < t) {k : String}
    (v : List Nat) (s : DBRecordStore) :
    readRecordSegments k (insertRecordSegments t k v s).primary
      (insertRecordSegments t k v s).sub = .ok v := by
  by_cases hsmall : v.length ≤ t
  · unfold insertRecordSegments insertPuts
    simp only [hsmall, if_pos, List.foldl_cons, List.foldl_nil, applyPut]
    simp [readRecordSegments, alGet_alPut_self]
  · have hn : (v.length + t - 1) / t = (chunks t v).length := (chunks_length ht v).symm
    have hP : alGet k (insertRecordSegments t k v s).primary =
        some (.header v.length ((v.length + t - 1) / t)) := by
      rw [insertSegs_primary_large hsmall, alGet_alPut_self]
    have hr : readSegs ((segPutsFrom k 0 (chunks t v)).foldl applyPut s).sub k
        (chunks t v).length = some ((chunks t v).take (chunks t v).length).flatten := by
      apply readSegs_eq
      intro j h1 h2
      rw [segfold_sub_get_in k (chunks t v) 0 s j (by omega) (by omega)]
      congr 1
      omega
    rw [List.take_length, chunks_flatten ht] at hr
    have hS : readSegs (insertRecordSegments t k v s).sub k
        ((v.length + t - 1) / t) = some v := by
      rw [insertSegs_sub_large hsmall, hn]
      exact hr
    simp only [readRecordSegments, hP, hS]
    simp

theorem readRecordSegments_insert_frame {t : Nat} {k k' : String}
    (hne : k' ≠ k) (v : List Nat) (s : DBRecordStore) :
    readRecordSegments k' (insertRecordSegments t k v s).primary
      (insertRecordSegments t k v s).sub =
      readRecordSegments k' s.primary s.sub := by
  have hsub : ∀ n, readSegs (insertRecordSegments t k v s).sub k' n =
      readSegs s.sub k' n :=
    fun n => readSegs_congr k' n (fun j _ _ => insertSegs_sub_frame hne v s j)
  simp only [readRecordSegments, insertSegs_primary_frame hne, hsub]

/-! ### Counting Subordinate entries -/

theorem subCount_eq_zero_iff (k : String)
    (sub : List ((String × Nat) × List Nat)) :
    subCount k sub = 0 ↔ ∀ i, alGet (k, i) sub = none := by
  induction sub with
  | nil => simp [subCount, alGet]
  | cons e rest ih =>
    by_cases hk : e.1.1 = k
    · constructor
      · intro h
        exfalso
        simp [subCount, List.filter_cons, hk] at h
      · intro h
        exfalso
        have hhit := h e.1.2
        have he : e.1 = (k, e.1.2) := by
          ext <;> simp [hk]
        rw [alGet, if_pos he] at hhit
        exact Option.some_ne_none _ hhit
    · have hfe : ∀ i, ¬ e.1 = (k, i) := by
        intro i hcon
        exact hk (by rw [hcon])
      constructor
      · intro h i
        rw [alGet, if_neg (hfe i)]
        refine (ih.mp ?_) i
        simpa [subCount, List.filter_cons, hk] using h
      · intro h
        have hrest : ∀ i, alGet (k, i) rest = none := by
          intro i
          have hi := h i
          rwa [alGet, if_neg (hfe i)] at hi
        simpa [subCount, List.filter_cons, hk] using ih.mpr hrest

theorem subCount_append_single (k : String)
    (sub : List ((String × Nat) × List Nat)) (e : (String × Nat) × List Nat) :
    subCount k (sub ++ [e]) =
      subCount k sub + (if e.1.1 = k then 1 else 0) := by
  by_cases hk : e.1.1 = k <;> simp [subCount, List.filter_append, hk]

theorem alGet_single {κ β : Type} [DecidableEq κ] (x y : κ) (v : β) :
    alGet x [(y, v)] = if y = x then some v else none := by
  simp [alGet]

theorem segfold_subCount (k : String) (segs : List (List Nat)) :
    ∀ (i : Nat) (s : DBRecordStore),
      (∀ j, i < j → alGet (k, j) s.sub = none) →
      subCount k ((segPutsFrom k i segs).foldl applyPut s).sub =
        subCount k s.sub + segs.length := by
  induction segs with
  | nil => intro i s _; simp [segPutsFrom]
  | cons c rest ih =>
    intro i s hfresh
    simp only [segPutsFrom, List.foldl_cons, applyPut]
    have hput : alPut (k, i + 1) c s.sub = s.sub ++ [((k, i + 1), c)] :=
      alPut_of_absent _ (hfresh (i + 1) (by omega))
    rw [ih (i + 1) _ ?_]
    · rw [hput, subCount_append_single]
      have hcond : (((k, i + 1), c) : (String × Nat) × List Nat).1.1 = k := rfl
      rw [if_pos hcond]
      simp only [List.length_cons]
      omega
    · intro j hj
      rw [hput, alGet_append_of_none _ (hfresh j (by omega)), alGet_single,
        if_neg (by simp; omega)]

theorem insertSegs_subCount_large {t : Nat} {k : String} {v : List Nat}
    (hbig : ¬ v.length ≤ t) {s : DBRecordStore}
    (hzero : subCount k s.sub = 0) :
    subCount k (insertRecordSegments t k v s).sub = (chunks t v).length := by
  unfold insertRecordSegments insertPuts
  simp only [hbig, if_neg, List.foldl_append, List.foldl_cons, List.foldl_nil,
    applyPut, if_false]
  have : subCount k ((segPutsFrom k 0 (chunks t v)).foldl applyPut s).sub =
      subCount k s.sub + (chunks t v).length := by
    apply segfold_subCount
    intro j _
    exact (subCount_eq_zero_iff k s.sub).mp hzero j
  simpa [hzero] using this

theorem insertSegs_sub_get_large {t : Nat} {k : String}
    {v : List Nat} (hbig : ¬ v.length ≤ t) {s : DBRecordStore} (j : Nat)
    (hnone : alGet (k, j + 1) s.sub = none) :
    alGet (k, j + 1) (insertRecordSegments t k v s).sub = (chunks t v)[j]? := by
  unfold insertRecordSegments insertPuts
  simp only [hbig, if_neg, List.foldl_append, List.foldl_cons, List.foldl_nil,
    applyPut, if_false]
  by_cases hin : j + 1 ≤ (chunks t v).length
  · rw [segfold_sub_get_in k (chunks t v) 0 s (j + 1) (by omega) (by omega)]
    have hidx : j + 1 - 0 - 1 = j := by omega
    rw [hidx]
  · rw [segfold_sub_get_hi k (chunks t v) 0 s (j + 1) (by omega), hnone]
    rw [List.getElem?_eq_none (by omega)]

/-! ### Lemmas about `removeRecordSegments` -/

theorem fold_subDels (k : String) (is : List Nat) :
    ∀ s : DBRecordStore,
      ((is.map (fun i => Del.sub k i)).foldl applyDel s) =
        { s with sub := is.foldl (fun l i => alDel (k, i) l) s.sub } := by
  induction is with
  | nil => intro s; simp
  | cons i rest ih =>
    intro s
    simp only [List.map_cons, List.foldl_cons, applyDel]
    rw [ih]

theorem alDelIdx_fold_get (k : String) (is : List Nat) (x : String × Nat) :
    ∀ l : List ((String × Nat) × List Nat),
      alGet x (is.foldl (fun l i => alDel (k, i) l) l) =
        if x.1 = k ∧ x.2 ∈ is then none else alGet x l := by
  induction is with
  | nil => intro l; simp
  | cons i rest ih =>
    intro l
    simp only [List.foldl_cons]
    rw [ih (alDel (k, i) l), alGet_alDel]
    by_cases h1 : x.1 = k ∧ x.2 ∈ rest
    · simp [h1]
    · by_cases h2 : x = (k, i)
      · have : x.1 = k ∧ x.2 ∈ i :: rest := by
          constructor
          · rw [h2]
          · rw [h2]; exact List.mem_cons_self _ _
        simp [h1, h2, this]
      · have hiff : (x.1 = k ∧ x.2 ∈ i :: rest) ↔ (x.1 = k ∧ x.2 ∈ rest) := by
          constructor
          · rintro ⟨ha, hb⟩
            rcases List.mem_cons.mp hb with hx | hx
            · exact absurd (Prod.ext ha hx) h2
            · exact ⟨ha, hx⟩
          · rintro ⟨ha, hb⟩
            exact ⟨ha, List.mem_cons_of_mem _ hb⟩
        simp only [h1, if_neg, hiff]
        simp [h1, h2]

theorem mem_subKeysOf {k : String} {i : Nat}
    {sub : List ((String × Nat) × List Nat)} {w : List Nat}
    (h : alGet (k, i) sub = some w) : i ∈ subKeysOf k sub := by
  induction sub with
  | nil => simp [alGet] at h
  | cons e rest ih =>
    by_cases he : e.1 = (k, i)
    · have hk : e.1.1 = k := by rw [he]
      have hi : e.1.2 = i := by rw [he]
      simp [subKeysOf, List.filter_cons, hk, hi]
    · rw [alGet, if_neg he] at h
      by_cases hk : e.1.1 = k
      · have hstep : subKeysOf k (e :: rest) = e.1.2 :: subKeysOf k rest := by
          simp [subKeysOf, List.filter_cons, hk]
        rw [hstep]
        exact List.mem_cons_of_mem _ (ih h)
      · simpa [subKeysOf, List.filter_cons, hk] using ih h

theorem removeSegs_sub_get (k : String) (s : DBRecordStore) (i : Nat) :
    alGet (k, i) (removeRecordSegments k s).sub = none := by
  unfold removeRecordSegments removeDels
  rw [List.foldl_append, fold_subDels]
  simp only [List.foldl_cons, List.foldl_nil, applyDel]
  rw [alDelIdx_fold_get]
  by_cases hmem : i ∈ subKeysOf k s.sub
  · simp [hmem]
  · simp only [hmem, and_false, if_false, if_neg]
    cases hget : alGet (k, i) s.sub with
    | none => rfl
    | some w => exact absurd (mem_subKeysOf hget) hmem

theorem removeSegs_sub_frame {k k' : String} (hne : k' ≠ k)
    (s : DBRecordStore) (i : Nat) :
    alGet (k', i) (removeRecordSegments k s).sub = alGet (k', i) s.sub := by
  unfold removeRecordSegments removeDels
  rw [List.foldl_append, fold_subDels]
  simp only [List.foldl_cons, List.foldl_nil, applyDel]
  rw [alDelIdx_fold_get]
  simp [hne]

theorem removeSegs_primary (k : String) (s : DBRecordStore) :
    (removeRecordSegments k s).primary = alDel k s.primary := by
  unfold removeRecordSegments removeDels
  rw [List.foldl_append, fold_subDels]
  simp [applyDel]

theorem removeSegs_mode (k : String) (s : DBRecordStore) :
    (removeRecordSegments k s).mode = s.mode := by
  unfold removeRecordSegments removeDels
  rw [List.foldl_append, fold_subDels]
  simp [applyDel]

theorem removeSegs_cursor (k : String) (s : DBRecordStore) :
    (removeRecordSegments k s).cursor = s.cursor := by
  unfold removeRecordSegments removeDels
  rw [List.foldl_append, fold_subDels]
  simp [applyDel]

theorem removeSegs_subCount (k : String) (s : DBRecordStore) :
    subCount k (removeRecordSegments k s).sub = 0 :=
  (subCount_eq_zero_iff k _).mpr (removeSegs_sub_get k s)

theorem removeSegs_primary_get (k : String) (s : DBRecordStore) :
    alGet k (removeRecordSegments k s).primary = none := by
  rw [removeSegs_primary, alGet_alDel]
  simp

theorem removeSegs_primary_frame {k k' : String} (hne : k' ≠ k)
    (s : DBRecordStore) :
    alGet k' (removeRecordSegments k s).primary = alGet k' s.primary := by
  rw [removeSegs_primary, alGet_alDel]
  simp [hne]

/-! ### Lemmas about the cursor and `sequence` -/

theorem readwrite_ne_readonly : READWRITE ≠ READONLY := by decide

theorem length_of_read_ok {s : DBRecordStore} {k : String} {v : List Nat}
    (h : readRecordSegments k s.primary s.sub = .ok v) :
    s.length k = .ok v.length := by
  cases hget : alGet k s.primary with
  | none =>
    simp [readRecordSegments, hget] at h
  | some e =>
    cases e with
    | whole w =>
      simp only [readRecordSegments, hget, Except.ok.injEq] at h
      simp only [DBRecordStore.length, hget, h]
    | header len n =>
      simp only [readRecordSegments, hget] at h
      cases hrs : readSegs s.sub k n with
      | none => simp [hrs] at h
      | some w =>
        simp only [hrs] at h
        by_cases hlen : w.length = len
        · simp only [if_pos hlen, Except.ok.injEq] at h
          have hlv : len = v.length := by
            rw [← h, hlen]
          simp only [DBRecordStore.length, hget, hlv]
        · simp [if_neg hlen] at h

theorem sequence_unpositioned {s : DBRecordStore}
    (hcur : s.cursor = .unpositioned) {k : String} {e : PEntry}
    (hhead : s.primary.head? = some (k, e)) {v : List Nat}
    (hread : readRecordSegments k s.primary s.sub = .ok v) :
    s.sequence = (.ok (k, v.length, none), { s with cursor := .atKey k }) := by
  simp [DBRecordStore.sequence, sequenceStep, hcur, hhead, hread]

theorem sequence_atKey {s : DBRecordStore} {k0 : String}
    (hcur : s.cursor = .atKey k0) {k : String} {e : PEntry}
    (hnext : nextAfter k0 s.primary = some (k, e)) {v : List Nat}
    (hread : readRecordSegments k s.primary s.sub = .ok v) :
    s.sequence = (.ok (k, v.length, none), { s with cursor := .atKey k }) := by
  simp [DBRecordStore.sequence, sequenceStep, hcur, hnext, hread]

theorem sequence_atKey_end {s : DBRecordStore} {k0 : String}
    (hcur : s.cursor = .atKey k0) (hnext : nextAfter k0 s.primary = none) :
    s.sequence = (.error .EndOfSequence, { s with cursor := .exhausted }) := by
  simp [DBRecordStore.sequence, sequenceStep, hcur, hnext]

theorem sequence_exhausted {s : DBRecordStore} (hcur : s.cursor = .exhausted) :
    s.sequence = (.error .EndOfSequence, { s with cursor := .exhausted }) := by
  simp [DBRecordStore.sequence, sequenceStep, hcur]

theorem sequenceStep_ok {primary : List (String × PEntry)}
    {sub : List ((String × Nat) × List Nat)} {cursor : CursorState}
    {k : String} {n : Nat} {d : Option (List Nat)} {cur' : CursorState}
    (h : sequenceStep primary sub cursor false = (.ok (k, n, d), cur')) :
    d = none ∧ cur' = .atKey k ∧
      ∃ v, readRecordSegments k primary sub = .ok v ∧ n = v.length := by
  cases cursor with
  | exhausted => simp [sequenceStep] at h
  | unpositioned =>
    cases hh : primary.head? with
    | none => simp [sequenceStep, hh] at h
    | some p =>
      cases hr : readRecordSegments p.1 primary sub with
      | error e => simp [sequenceStep, hh, hr] at h
      | ok v =>
        simp only [sequenceStep, hh, hr] at h
        simp only [Prod.mk.injEq, Except.ok.injEq] at h
        obtain ⟨⟨hk, hn, hd⟩, hc⟩ := h
        subst hk
        exact ⟨hd.symm, hc.symm, v, hr, hn.symm⟩
  | atKey k0 =>
    cases hh : nextAfter k0 primary with
    | none => simp [sequenceStep, hh] at h
    | some p =>
      cases hr : readRecordSegments p.1 primary sub with
      | error e => simp [sequenceStep, hh, hr] at h
      | ok v =>
        simp only [sequenceStep, hh, hr] at h
        simp only [Prod.mk.injEq, Except.ok.injEq] at h
        obtain ⟨⟨hk, hn, hd⟩, hc⟩ := h
        subst hk
        exact ⟨hd.symm, hc.symm, v, hr, hn.symm⟩

theorem nextAfter_ne_of_nodup {k k' : String} {e' : PEntry}
    {l : List (String × PEntry)} (hnd : (l.map Prod.fst).Nodup)
    (hna : nextAfter k l = some (k', e')) : k' ≠ k := by
  induction l with
  | nil => simp [nextAfter] at hna
  | cons p rest ih =>
    rw [List.map_cons, List.nodup_cons] at hnd
    obtain ⟨hnotin, hnd'⟩ := hnd
    by_cases hk : p.1 = k
    · rw [nextAfter, if_pos hk] at hna
      have hmem : (k', e') ∈ rest := by
        cases rest with
        | nil => simp at hna
        | cons q qs =>
          simp only [List.head?_cons, Option.some.injEq] at hna
          rw [← hna]
          exact List.mem_cons_self _ _
      have : k' ∈ rest.map Prod.fst := List.mem_map_of_mem _ hmem
      intro hcon
      rw [hcon, ← hk] at this
      exact hnotin this
    · rw [nextAfter, if_neg hk] at hna
      exact ih hnd' hna

/-! ### The claims -/

/-- C9 counterexample: the claim that `READONLY` is 0 and `READWRITE` is 1
is false for the constants declared in `be_io.h`, where `READWRITE = 0`
and `READONLY = 1`. -/
theorem C9_counterexample : ¬ (READONLY = 0 ∧ READWRITE = 1) := by decide

/-- C9 (amended): the open-mode constants of `be_io.h` are `READWRITE = 0`
and `READONLY = 1`, and they are distinct. -/
theorem C9_mode_constants :
    READWRITE = 0 ∧ READONLY = 1 ∧ READWRITE ≠ READONLY := by decide

/-- C1: for every key `k` and every byte sequence `v` (including the empty
sequence and sequences longer than the segment threshold), `insert(k, v)`
on a writable store where `k` is absent succeeds, and a subsequent
`read(k)` returns exactly `v`. -/
theorem C1_round_trip (t : Nat) (k : String) (v : List Nat)
    (s : DBRecordStore) (ht : 0 < t) (hmode : s.mode = READWRITE)
    (habs : alGet k s.primary = none) :
    (s.insert t k v).1 = .ok () ∧ ((s.insert t k v).2).read k = .ok v := by
  have hro : ¬ s.mode = READONLY := by
    rw [hmode]; exact readwrite_ne_readonly
  constructor
  · simp [DBRecordStore.insert, hro, habs]
  · simp only [DBRecordStore.insert, hro, if_false, if_neg, habs]
    exact readRecordSegments_insert ht v s

/-- C1 witness: the round trip at threshold 2 on the empty store with a
five-byte value. -/
theorem C1_round_trip_witness :
    0 < 2 ∧ emptyStore.mode = READWRITE ∧
    alGet "k" emptyStore.primary = none ∧
    ((emptyStore.insert 2 "k" [5, 6, 7, 8, 9]).1 = .ok () ∧
      ((emptyStore.insert 2 "k" [5, 6, 7, 8, 9]).2).read "k" =
        .ok [5, 6, 7, 8, 9]) :=
  ⟨by decide, by decide, by decide,
    C1_round_trip 2 "k" [5, 6, 7, 8, 9] emptyStore (by decide) (by decide)
      (by decide)⟩

/-- C5: on a store opened in READONLY mode, each of `insert`, `remove`,
`replace` and `sync` fails with ReadOnlyViolation with the store state
unchanged (the check precedes any backend mutation), while `read` and
`sequence` behave exactly as on the same store opened read-write. -/
theorem C5_readonly_enforcement (s : DBRecordStore) (t : Nat) (k : String)
    (v : List Nat) (b : Bool) (c : Nat) (hro : s.mode = READONLY) :
    s.insert t k v = (.error .ReadOnlyViolation, s) ∧
    s.remove k = (.error .ReadOnlyViolation, s) ∧
    s.replace t k v = (.error .ReadOnlyViolation, s) ∧
    s.sync = .error .ReadOnlyViolation ∧
    s.read k = ({ s with mode := READWRITE }).read k ∧
    (s.sequence b c).1 = (({ s with mode := READWRITE }).sequence b c).1 ∧
    (s.sequence b c).2 =
      { (({ s with mode := READWRITE }).sequence b c).2 with mode := READONLY } := by
  obtain ⟨P, S, m, cur⟩ := s
  simp only at hro
  subst hro
  refine ⟨?_, ?_, ?_, ?_, ?_, ?_, ?_⟩
  · simp [DBRecordStore.insert]
  · simp [DBRecordStore.remove]
  · simp [DBRecordStore.replace]
  · simp [DBRecordStore.sync]
  · rfl
  · by_cases hc : c = BE_RECSTORE_SEQ_NEXT <;>
      simp [DBRecordStore.sequence, hc]
  · by_cases hc : c = BE_RECSTORE_SEQ_NEXT <;>
      simp [DBRecordStore.sequence, hc]

/-- C5 witness: a read-only store holding one record. -/
theorem C5_readonly_enforcement_witness :
    roStore.mode = READONLY ∧
    (roStore.insert 2 "k" [1] = (.error .ReadOnlyViolation, roStore) ∧
      roStore.remove "k" = (.error .ReadOnlyViolation, roStore) ∧
      roStore.replace 2 "k" [1] = (.error .ReadOnlyViolation, roStore) ∧
      roStore.sync = .error .ReadOnlyViolation ∧
      roStore.read "k" = ({ roStore with mode := READWRITE }).read "k" ∧
      (roStore.sequence false BE_RECSTORE_SEQ_NEXT).1 =
        (({ roStore with mode := READWRITE }).sequence false
          BE_RECSTORE_SEQ_NEXT).1 ∧
      (roStore.sequence false BE_RECSTORE_SEQ_NEXT).2 =
        { (({ roStore with mode := READWRITE }).sequence false
            BE_RECSTORE_SEQ_NEXT).2 with mode := READONLY }) :=
  ⟨by decide,
    C5_readonly_enforcement roStore 2 "k" [1] false BE_RECSTORE_SEQ_NEXT
      (by decide)⟩

/-- C10: `DBRecordStore::sequence` can be called with its declared default
arguments (`data = nullptr`, `cursor = BE_RECSTORE_SEQ_NEXT`); such a call
advances the cursor to the returned key and yields the record's logical
length as the return value without materializing the record's bytes. -/
theorem C10_sequence_defaults (s : DBRecordStore) (k : String) (n : Nat)
    (d : Option (List Nat)) (s' : DBRecordStore)
    (h : s.sequence = (.ok (k, n, d), s')) :
    s.sequence = s.sequence false BE_RECSTORE_SEQ_NEXT ∧
    d = none ∧ s.length k = .ok n ∧ s'.cursor = .atKey k := by
  refine ⟨rfl, ?_⟩
  rw [DBRecordStore.sequence, if_pos rfl] at h
  simp only [Prod.mk.injEq] at h
  obtain ⟨h1, h2⟩ := h
  have hstep : sequenceStep s.primary s.sub s.cursor false =
      (.ok (k, n, d), (sequenceStep s.primary s.sub s.cursor false).2) := by
    rw [← h1]
  obtain ⟨hd, hcur, v, hread, hn⟩ := sequenceStep_ok hstep
  refine ⟨hd, ?_, ?_⟩
  · rw [hn]
    exact length_of_read_ok hread
  · rw [← h2]
    exact hcur

/-- C10 witness: a one-record store sequenced with all defaults. -/
theorem C10_sequence_defaults_witness :
    seqStore.sequence =
      (.ok ("a", 2, none), { seqStore with cursor := .atKey "a" }) ∧
    (seqStore.sequence = seqStore.sequence false BE_RECSTORE_SEQ_NEXT ∧
      (none : Option (List Nat)) = none ∧ seqStore.length "a" = .ok 2 ∧
      ({ seqStore with cursor := .atKey "a" } : DBRecordStore).cursor =
        .atKey "a") :=
  ⟨by decide,
    C10_sequence_defaults seqStore "a" 2 none
      { seqStore with cursor := .atKey "a" } (by decide)⟩

theorem segPutsFrom_length (k : String) (segs : List (List Nat)) :
    ∀ i, (segPutsFrom k i segs).length = segs.length := by
  induction segs with
  | nil => intro i; simp [segPutsFrom]
  | cons c rest ih =>
    intro i
    simp [segPutsFrom, ih]

theorem segPutsFrom_isSub (k : String) (segs : List (List Nat)) :
    ∀ i, ∀ p ∈ segPutsFrom k i segs, p.isSubPut = true := by
  induction segs with
  | nil => intro i p hp; simp [segPutsFrom] at hp
  | cons c rest ih =>
    intro i p hp
    simp only [segPutsFrom, List.mem_cons] at hp
    rcases hp with h | h
    · rw [h]; rfl
    · exact ih (i + 1) p h

theorem allSub_fold_primary (ps : List Put) :
    ∀ s : DBRecordStore, (∀ p ∈ ps, p.isSubPut = true) →
      (ps.foldl applyPut s).primary = s.primary := by
  induction ps with
  | nil => intro s _; rfl
  | cons p rest ih =>
    intro s hall
    rw [List.foldl_cons]
    rw [ih _ (fun q hq => hall q (List.mem_cons_of_mem _ hq))]
    cases p with
    | prim k e =>
      exact absurd (hall _ (List.mem_cons_self _ _)) (by simp [Put.isSubPut])
    | sub k i seg => rfl

/-- C3: during a segmented write all Subordinate segment entries are
written before the Primary header, so in every state reached by
interrupting the write after any number of backend puts, `read(k)` either
fails with NotFound or returns the complete value being written; no
reachable intermediate state yields a torn value. -/
theorem C3_no_torn_reads (t : Nat) (k : String) (v : List Nat)
    (s : DBRecordStore) (ht : 0 < t) (habs : alGet k s.primary = none)
    (i : Nat) :
    readRecordSegments k (insertPrefixState t k v s i).primary
        (insertPrefixState t k v s i).sub = .error .NotFound ∨
      readRecordSegments k (insertPrefixState t k v s i).primary
        (insertPrefixState t k v s i).sub = .ok v := by
  by_cases hsmall : v.length ≤ t
  · cases i with
    | zero =>
      left
      simp [insertPrefixState, readRecordSegments, habs]
    | succ n =>
      right
      have hfull : insertPrefixState t k v s (n + 1) =
          insertRecordSegments t k v s := by
        unfold insertPrefixState insertRecordSegments insertPuts
        simp [hsmall]
      rw [hfull]
      exact readRecordSegments_insert ht v s
  · have hlen : (segPutsFrom k 0 (chunks t v)).length = (chunks t v).length :=
      segPutsFrom_length k (chunks t v) 0
    by_cases hi : i ≤ (chunks t v).length
    · left
      have htake : (insertPuts t k v).take i =
          (segPutsFrom k 0 (chunks t v)).take i := by
        unfold insertPuts
        rw [if_neg hsmall]
        exact List.take_append_of_le_length (by omega)
      have hprim : (insertPrefixState t k v s i).primary = s.primary := by
        unfold insertPrefixState
        rw [htake]
        apply allSub_fold_primary
        intro p hp
        exact segPutsFrom_isSub k (chunks t v) 0 p (List.take_subset _ _ hp)
      simp [readRecordSegments, hprim, habs]
    · right
      have htake : (insertPuts t k v).take i = insertPuts t k v := by
        apply List.take_of_length_le
        unfold insertPuts
        rw [if_neg hsmall]
        simp only [List.length_append, List.length_cons, List.length_nil]
        omega
      have hfull : insertPrefixState t k v s i = insertRecordSegments t k v s := by
        unfold insertPrefixState insertRecordSegments
        rw [htake]
      rw [hfull]
      exact readRecordSegments_insert ht v s

/-- C3 witness: interrupting the write of a five-byte value at threshold 2
after two of its four backend puts. -/
theorem C3_no_torn_reads_witness :
    0 < 2 ∧ alGet "k" emptyStore.primary = none ∧
    (readRecordSegments "k"
        (insertPrefixState 2 "k" [1, 2, 3, 4, 5] emptyStore 2).primary
        (insertPrefixState 2 "k" [1, 2, 3, 4, 5] emptyStore 2).sub =
        .error .NotFound ∨
      readRecordSegments "k"
        (insertPrefixState 2 "k" [1, 2, 3, 4, 5] emptyStore 2).primary
        (insertPrefixState 2 "k" [1, 2, 3, 4, 5] emptyStore 2).sub =
        .ok [1, 2, 3, 4, 5]) :=
  ⟨by decide, by decide,
    C3_no_torn_reads 2 "k" [1, 2, 3, 4, 5] emptyStore (by decide) (by decide) 2⟩

/-- C2: for a value `v` with `len(v) = threshold * 3 + 1` inserted under an
absent key, the store holds exactly 4 Subordinate segment entries for the
key plus one Primary header whose segment count is
`ceil(len(v) / threshold) = 4`; the stored segments are the chunks of `v`,
each of size `threshold` except possibly the last; `read(k)` returns `v`
unchanged and `length(k)` equals `len(v)`. -/
theorem C2_segmentation (t : Nat) (k : String) (v : List Nat)
    (s : DBRecordStore) (ht : 0 < t) (hmode : s.mode = READWRITE)
    (habs : alGet k s.primary = none) (hzero : subCount k s.sub = 0)
    (hlen : v.length = 3 * t + 1) :
    (s.insert t k v).1 = .ok () ∧
    subCount k (s.insert t k v).2.sub = 4 ∧
    (v.length + t - 1) / t = 4 ∧
    alGet k (s.insert t k v).2.primary = some (.header v.length 4) ∧
    (s.insert t k v).2.primary.length = s.primary.length + 1 ∧
    (∀ j, alGet (k, j + 1) (s.insert t k v).2.sub = (chunks t v)[j]?) ∧
    (∀ c ∈ (chunks t v).dropLast, c.length = t) ∧
    (s.insert t k v).2.read k = .ok v ∧
    (s.insert t k v).2.length k = .ok v.length := by
  have hro : ¬ s.mode = READONLY := by
    rw [hmode]; exact readwrite_ne_readonly
  have hbig : ¬ v.length ≤ t := by omega
  have hceil : (v.length + t - 1) / t = 4 := by
    have h4 : v.length + t - 1 = 4 * t := by omega
    rw [h4]
    exact Nat.mul_div_cancel 4 ht
  have hclen : (chunks t v).length = 4 := by
    rw [chunks_length ht v, hceil]
  have hsnd : (s.insert t k v).2 = insertRecordSegments t k v s := by
    simp [DBRecordStore.insert, hro, habs]
  have hfst : (s.insert t k v).1 = .ok () := by
    simp [DBRecordStore.insert, hro, habs]
  have hprim : (insertRecordSegments t k v s).primary =
      s.primary ++ [(k, pentryOf t v)] := insertSegs_primary habs
  refine ⟨hfst, ?_, hceil, ?_, ?_, ?_, chunks_dropLast_size ht v, ?_, ?_⟩
  · rw [hsnd, insertSegs_subCount_large hbig hzero, hclen]
  · rw [hsnd, hprim, alGet_append_of_none _ habs, alGet_single, if_pos rfl,
      pentryOf, if_neg hbig, hceil]
  · rw [hsnd, hprim]
    simp
  · intro j
    rw [hsnd]
    exact insertSegs_sub_get_large hbig j
      ((subCount_eq_zero_iff k s.sub).mp hzero (j + 1))
  · rw [hsnd]
    exact readRecordSegments_insert ht v s
  · rw [hsnd]
    exact length_of_read_ok (readRecordSegments_insert ht v s)

/-- C2 witness: threshold 2 and a seven-byte value on the empty store. -/
theorem C2_segmentation_witness :
    0 < 2 ∧ emptyStore.mode = READWRITE ∧
    alGet "k" emptyStore.primary = none ∧
    subCount "k" emptyStore.sub = 0 ∧
    ([1, 2, 3, 4, 5, 6, 7] : List Nat).length = 3 * 2 + 1 ∧
    ((emptyStore.insert 2 "k" [1, 2, 3, 4, 5, 6, 7]).1 = .ok () ∧
      subCount "k" (emptyStore.insert 2 "k" [1, 2, 3, 4, 5, 6, 7]).2.sub = 4 ∧
      (([1, 2, 3, 4, 5, 6, 7] : List Nat).length + 2 - 1) / 2 = 4 ∧
      alGet "k" (emptyStore.insert 2 "k" [1, 2, 3, 4, 5, 6, 7]).2.primary =
        some (.header ([1, 2, 3, 4, 5, 6, 7] : List Nat).length 4) ∧
      (emptyStore.insert 2 "k" [1, 2, 3, 4, 5, 6, 7]).2.primary.length =
        emptyStore.primary.length + 1 ∧
      (∀ j, alGet ("k", j + 1)
          (emptyStore.insert 2 "k" [1, 2, 3, 4, 5, 6, 7]).2.sub =
          (chunks 2 [1, 2, 3, 4, 5, 6, 7])[j]?) ∧
      (∀ c ∈ (chunks 2 [1, 2, 3, 4, 5, 6, 7]).dropLast, c.length = 2) ∧
      (emptyStore.insert 2 "k" [1, 2, 3, 4, 5, 6, 7]).2.read "k" =
        .ok [1, 2, 3, 4, 5, 6, 7] ∧
      (emptyStore.insert 2 "k" [1, 2, 3, 4, 5, 6, 7]).2.length "k" =
        .ok ([1, 2, 3, 4, 5, 6, 7] : List Nat).length) :=
  ⟨by decide, by decide, by decide, by decide, by decide,
    C2_segmentation 2 "k" [1, 2, 3, 4, 5, 6, 7] emptyStore (by decide)
      (by decide) (by decide) (by decide) (by decide)⟩

/-- C6: after `remove(k)` succeeds on a present key, a second `remove(k)`
fails with NotFound, `read(k)` fails with NotFound, and no Subordinate
entries for `k` remain; moreover the remove issues its Subordinate
segment deletes before the final Primary delete. -/
theorem C6_remove (k : String) (s : DBRecordStore) (e : PEntry)
    (hmode : s.mode = READWRITE) (hpres : alGet k s.primary = some e) :
    (s.remove k).1 = .ok () ∧
    ((s.remove k).2.remove k).1 = .error .NotFound ∧
    (s.remove k).2.read k = .error .NotFound ∧
    subCount k (s.remove k).2.sub = 0 ∧
    (removeDels k s).getLast? = some (.prim k) ∧
    (∀ d ∈ (removeDels k s).dropLast, d.isSubDel = true) := by
  have hro : ¬ s.mode = READONLY := by
    rw [hmode]; exact readwrite_ne_readonly
  have hsnd : (s.remove k).2 = removeRecordSegments k s := by
    simp [DBRecordStore.remove, hro, hpres]
  have hfst : (s.remove k).1 = .ok () := by
    simp [DBRecordStore.remove, hro, hpres]
  have hro' : ¬ (removeRecordSegments k s).mode = READONLY := by
    rw [removeSegs_mode, hmode]; exact readwrite_ne_readonly
  refine ⟨hfst, ?_, ?_, ?_, ?_, ?_⟩
  · rw [hsnd]
    simp [DBRecordStore.remove, hro', removeSegs_primary_get]
  · rw [hsnd]
    simp [DBRecordStore.read, readRecordSegments, removeSegs_primary_get]
  · rw [hsnd]
    exact removeSegs_subCount k s
  · unfold removeDels
    exact List.getLast?_concat _
  · unfold removeDels
    rw [List.dropLast_concat]
    intro d hd
    obtain ⟨i, _, hdel⟩ := List.mem_map.mp hd
    rw [← hdel]
    rfl

/-- C6 witness: removing a three-segment record. -/
theorem C6_remove_witness :
    segStore.mode = READWRITE ∧
    alGet "k" segStore.primary = some (.header 5 3) ∧
    ((segStore.remove "k").1 = .ok () ∧
      ((segStore.remove "k").2.remove "k").1 = .error .NotFound ∧
      (segStore.remove "k").2.read "k" = .error .NotFound ∧
      subCount "k" (segStore.remove "k").2.sub = 0 ∧
      (removeDels "k" segStore).getLast? = some (.prim "k") ∧
      (∀ d ∈ (removeDels "k" segStore).dropLast, d.isSubDel = true)) :=
  ⟨by decide, by decide,
    C6_remove "k" segStore (.header 5 3) (by decide) (by decide)⟩

theorem alDel_append {κ β : Type} [DecidableEq κ] (k : κ)
    (l1 l2 : List (κ × β)) :
    alDel k (l1 ++ l2) = alDel k l1 ++ alDel k l2 := by
  simp [alDel_eq_filter, List.filter_append]

theorem insertSegs_sub_small {t : Nat} {k : String} {v : List Nat}
    (hsmall : v.length ≤ t) (s : DBRecordStore) :
    (insertRecordSegments t k v s).sub = s.sub := by
  unfold insertRecordSegments insertPuts
  simp [hsmall, applyPut]

/-- C7: `replace(k, v2)` fails with NotFound when `k` is absent (leaving
the store unchanged); after `insert(k, v1)` succeeds, `replace(k, v2)`
succeeds, `read(k)` returns `v2`, the old header and segments of `k` are
fully replaced (the Primary entry is the fresh one for `v2` and no
Subordinate entry survives beyond the new segment count), and the total
number of keys is unchanged by the replace. -/
theorem C7_replace (t : Nat) (k : String) (v1 v2 : List Nat)
    (s : DBRecordStore) (ht : 0 < t) (hmode : s.mode = READWRITE)
    (habs : alGet k s.primary = none) :
    s.replace t k v2 = (.error .NotFound, s) ∧
    (s.insert t k v1).1 = .ok () ∧
    ((s.insert t k v1).2.replace t k v2).1 = .ok () ∧
    ((s.insert t k v1).2.replace t k v2).2.read k = .ok v2 ∧
    ((s.insert t k v1).2.replace t k v2).2.primary.length =
      (s.insert t k v1).2.primary.length ∧
    alGet k ((s.insert t k v1).2.replace t k v2).2.primary =
      some (pentryOf t v2) ∧
    (∀ i, numSegs t v2 < i →
      alGet (k, i) ((s.insert t k v1).2.replace t k v2).2.sub = none) := by
  have hro : ¬ s.mode = READONLY := by
    rw [hmode]; exact readwrite_ne_readonly
  have hsnd : (s.insert t k v1).2 = insertRecordSegments t k v1 s := by
    simp [DBRecordStore.insert, hro, habs]
  have hm1 : (insertRecordSegments t k v1 s).mode = READWRITE := by
    rw [insertSegs_mode, hmode]
  have hro1 : ¬ (insertRecordSegments t k v1 s).mode = READONLY := by
    rw [hm1]; exact readwrite_ne_readonly
  have hP1 : (insertRecordSegments t k v1 s).primary =
      s.primary ++ [(k, pentryOf t v1)] := insertSegs_primary habs
  have hget1 : alGet k (insertRecordSegments t k v1 s).primary =
      some (pentryOf t v1) := by
    rw [hP1, alGet_append_of_none _ habs, alGet_single, if_pos rfl]
  have hrepl : (insertRecordSegments t k v1 s).replace t k v2 =
      (.ok (), insertRecordSegments t k v2
        (removeRecordSegments k (insertRecordSegments t k v1 s))) := by
    simp [DBRecordStore.replace, hro1, hget1]
  have hgetR : alGet k
      (removeRecordSegments k (insertRecordSegments t k v1 s)).primary =
      none := removeSegs_primary_get k _
  have hPR : (removeRecordSegments k (insertRecordSegments t k v1 s)).primary =
      s.primary := by
    rw [removeSegs_primary, hP1, alDel_append, alDel_of_absent habs]
    simp [alDel]
  have hP2 : (insertRecordSegments t k v2
      (removeRecordSegments k (insertRecordSegments t k v1 s))).primary =
      (removeRecordSegments k (insertRecordSegments t k v1 s)).primary ++
        [(k, pentryOf t v2)] := insertSegs_primary hgetR
  refine ⟨?_, ?_, ?_, ?_, ?_, ?_, ?_⟩
  · simp [DBRecordStore.replace, hro, habs]
  · simp [DBRecordStore.insert, hro, habs]
  · rw [hsnd, hrepl]
  · rw [hsnd, hrepl]
    exact readRecordSegments_insert ht v2 _
  · rw [hsnd, hrepl]
    simp only [hP2, hPR, hP1]
    simp
  · rw [hsnd, hrepl]
    simp only [hP2]
    rw [alGet_append_of_none _ hgetR, alGet_single, if_pos rfl]
  · intro i hi
    rw [hsnd, hrepl]
    obtain ⟨j, rfl⟩ : ∃ j, i = j + 1 := ⟨i - 1, by omega⟩
    simp only []
    by_cases hsm2 : v2.length ≤ t
    · rw [insertSegs_sub_small hsm2]
      exact removeSegs_sub_get k _ (j + 1)
    · rw [insertSegs_sub_get_large hsm2 j (removeSegs_sub_get k _ (j + 1))]
      apply List.getElem?_eq_none
      rw [chunks_length ht v2]
      unfold numSegs at hi
      rw [if_neg hsm2] at hi
      omega

/-- C7 witness: replacing a three-byte segmented value with a one-byte
value at threshold 2 on the empty store. -/
theorem C7_replace_witness :
    0 < 2 ∧ emptyStore.mode = READWRITE ∧
    alGet "k" emptyStore.primary = none ∧
    (emptyStore.replace 2 "k" [9] = (.error .NotFound, emptyStore) ∧
      (emptyStore.insert 2 "k" [1, 2, 3]).1 = .ok () ∧
      ((emptyStore.insert 2 "k" [1, 2, 3]).2.replace 2 "k" [9]).1 = .ok () ∧
      ((emptyStore.insert 2 "k" [1, 2, 3]).2.replace 2 "k" [9]).2.read "k" =
        .ok [9] ∧
      ((emptyStore.insert 2 "k" [1, 2, 3]).2.replace 2 "k" [9]).2.primary.length =
        (emptyStore.insert 2 "k" [1, 2, 3]).2.primary.length ∧
      alGet "k" ((emptyStore.insert 2 "k" [1, 2, 3]).2.replace 2 "k" [9]).2.primary =
        some (pentryOf 2 [9]) ∧
      (∀ i, numSegs 2 [9] < i →
        alGet ("k", i)
          ((emptyStore.insert 2 "k" [1, 2, 3]).2.replace 2 "k" [9]).2.sub =
          none)) :=
  ⟨by decide, by decide, by decide,
    C7_replace 2 "k" [1, 2, 3] [9] emptyStore (by decide) (by decide)
      (by decide)⟩

theorem insert_ok {s : DBRecordStore} {t : Nat} {k : String} {v : List Nat}
    (hmode : s.mode = READWRITE) (habs : alGet k s.primary = none) :
    s.insert t k v = (.ok (), insertRecordSegments t k v s) := by
  have hro : ¬ s.mode = READONLY := by
    rw [hmode]; exact readwrite_ne_readonly
  simp [DBRecordStore.insert, hro, habs]

/-- C8: `setCursorAtKey(k)` fails with NotFound when `k` is absent; when
`k` is present it sets the cursor to `At(k)`, and the immediately
following `sequence(NEXT)` call returns the entry after `k` in the store's
key order — never the entry for `k` itself. -/
theorem C8_setCursorAtKey (s : DBRecordStore) (k : String)
    (hnd : (s.primary.map Prod.fst).Nodup) :
    (alGet k s.primary = none → s.setCursorAtKey k = (.error .NotFound, s)) ∧
    (∀ e, alGet k s.primary = some e →
      s.setCursorAtKey k = (.ok (), { s with cursor := .atKey k }) ∧
      ∀ k' e', nextAfter k s.primary = some (k', e') →
        k' ≠ k ∧
        ∀ v, readRecordSegments k' s.primary s.sub = .ok v →
          ({ s with cursor := .atKey k } : DBRecordStore).sequence =
            (.ok (k', v.length, none), { s with cursor := .atKey k' })) := by
  constructor
  · intro h
    simp [DBRecordStore.setCursorAtKey, h]
  · intro e he
    constructor
    · simp [DBRecordStore.setCursorAtKey, he]
    · intro k' e' hna
      refine ⟨nextAfter_ne_of_nodup hnd hna, ?_⟩
      intro v hv
      exact @sequence_atKey { s with cursor := .atKey k } k rfl k' e' hna v hv

/-- C8 witness: cursor positioned at the middle key of a three-key
store. -/
theorem C8_setCursorAtKey_witness :
    (threeStore.primary.map Prod.fst).Nodup ∧
    ((alGet "b" threeStore.primary = none →
        threeStore.setCursorAtKey "b" = (.error .NotFound, threeStore)) ∧
      (∀ e, alGet "b" threeStore.primary = some e →
        threeStore.setCursorAtKey "b" =
          (.ok (), { threeStore with cursor := .atKey "b" }) ∧
        ∀ k' e', nextAfter "b" threeStore.primary = some (k', e') →
          k' ≠ "b" ∧
          ∀ v, readRecordSegments k' threeStore.primary threeStore.sub =
              .ok v →
            ({ threeStore with cursor := .atKey "b" } : DBRecordStore).sequence =
              (.ok (k', v.length, none),
                { threeStore with cursor := .atKey k' }))) :=
  ⟨by decide, C8_setCursorAtKey threeStore "b" (by decide)⟩

/-- C4: inserting distinct keys `a`, `b`, `c` into the empty store and
sequencing with NEXT from the Unpositioned cursor yields `a`, `b`, `c`
each exactly once (the traversal order of the backend), a fourth call
fails with EndOfSequence leaving the cursor Exhausted, and a further call
from Exhausted re-fails with EndOfSequence without changing state. -/
theorem C4_sequencing (t : Nat) (ka kb kc : String) (va vb vc : List Nat)
    (ht : 0 < t) (hab : ka ≠ kb) (hac : ka ≠ kc) (hbc : kb ≠ kc) :
    (emptyStore.insert t ka va).1 = .ok () ∧
    ((emptyStore.insert t ka va).2.insert t kb vb).1 = .ok () ∧
    (((emptyStore.insert t ka va).2.insert t kb vb).2.insert t kc vc).1 =
      .ok () ∧
    (insThree t ka kb kc va vb vc).sequence =
      (.ok (ka, va.length, none),
        { insThree t ka kb kc va vb vc with cursor := .atKey ka }) ∧
    ({ insThree t ka kb kc va vb vc with
        cursor := .atKey ka } : DBRecordStore).sequence =
      (.ok (kb, vb.length, none),
        { insThree t ka kb kc va vb vc with cursor := .atKey kb }) ∧
    ({ insThree t ka kb kc va vb vc with
        cursor := .atKey kb } : DBRecordStore).sequence =
      (.ok (kc, vc.length, none),
        { insThree t ka kb kc va vb vc with cursor := .atKey kc }) ∧
    ({ insThree t ka kb kc va vb vc with
        cursor := .atKey kc } : DBRecordStore).sequence =
      (.error .EndOfSequence,
        { insThree t ka kb kc va vb vc with cursor := .exhausted }) ∧
    ({ insThree t ka kb kc va vb vc with
        cursor := .exhausted } : DBRecordStore).sequence =
      (.error .EndOfSequence,
        { insThree t ka kb kc va vb vc with cursor := .exhausted }) := by
  have ha0 : alGet ka emptyStore.primary = none := rfl
  have hi1 : emptyStore.insert t ka va =
      (.ok (), insertRecordSegments t ka va emptyStore) :=
    insert_ok (by rfl) ha0
  have f1 : (emptyStore.insert t ka va).2 =
      insertRecordSegments t ka va emptyStore := by rw [hi1]
  have hm1 : (insertRecordSegments t ka va emptyStore).mode = READWRITE := by
    rw [insertSegs_mode]
    rfl
  have hP1 : (insertRecordSegments t ka va emptyStore).primary =
      [(ka, pentryOf t va)] := by
    rw [insertSegs_primary ha0]
    rfl
  have hb1 : alGet kb (insertRecordSegments t ka va emptyStore).primary =
      none := by
    rw [hP1]
    simp [alGet, hab]
  have hi2 : (insertRecordSegments t ka va emptyStore).insert t kb vb =
      (.ok (), insertRecordSegments t kb vb
        (insertRecordSegments t ka va emptyStore)) :=
    insert_ok hm1 hb1
  have f2 : ((emptyStore.insert t ka va).2.insert t kb vb).2 =
      insertRecordSegments t kb vb (insertRecordSegments t ka va emptyStore) := by
    rw [f1, hi2]
  have hm2 : (insertRecordSegments t kb vb
      (insertRecordSegments t ka va emptyStore)).mode = READWRITE := by
    rw [insertSegs_mode, hm1]
  have hP2 : (insertRecordSegments t kb vb
      (insertRecordSegments t ka va emptyStore)).primary =
      [(ka, pentryOf t va), (kb, pentryOf t vb)] := by
    rw [insertSegs_primary hb1, hP1]
    rfl
  have hc2 : alGet kc (insertRecordSegments t kb vb
      (insertRecordSegments t ka va emptyStore)).primary = none := by
    rw [hP2]
    simp [alGet, hac, hbc]
  have hi3 : (insertRecordSegments t kb vb
      (insertRecordSegments t ka va emptyStore)).insert t kc vc =
      (.ok (), insertRecordSegments t kc vc (insertRecordSegments t kb vb
        (insertRecordSegments t ka va emptyStore))) :=
    insert_ok hm2 hc2
  have f3 : insThree t ka kb kc va vb vc =
      insertRecordSegments t kc vc (insertRecordSegments t kb vb
        (insertRecordSegments t ka va emptyStore)) := by
    unfold insThree
    rw [f2, hi3]
  have hP3 : (insertRecordSegments t kc vc (insertRecordSegments t kb vb
      (insertRecordSegments t ka va emptyStore))).primary =
      [(ka, pentryOf t va), (kb, pentryOf t vb), (kc, pentryOf t vc)] := by
    rw [insertSegs_primary hc2, hP2]
    rfl
  have hcur3 : (insertRecordSegments t kc vc (insertRecordSegments t kb vb
      (insertRecordSegments t ka va emptyStore))).cursor = .unpositioned := by
    rw [insertSegs_cursor, insertSegs_cursor, insertSegs_cursor]
    rfl
  have hrc : readRecordSegments kc
      (insertRecordSegments t kc vc (insertRecordSegments t kb vb
        (insertRecordSegments t ka va emptyStore))).primary
      (insertRecordSegments t kc vc (insertRecordSegments t kb vb
        (insertRecordSegments t ka va emptyStore))).sub = .ok vc :=
    readRecordSegments_insert ht vc _
  have hrb : readRecordSegments kb
      (insertRecordSegments t kc vc (insertRecordSegments t kb vb
        (insertRecordSegments t ka va emptyStore))).primary
      (insertRecordSegments t kc vc (insertRecordSegments t kb vb
        (insertRecordSegments t ka va emptyStore))).sub = .ok vb := by
    rw [readRecordSegments_insert_frame hbc vc _]
    exact readRecordSegments_insert ht vb _
  have hra : readRecordSegments ka
      (insertRecordSegments t kc vc (insertRecordSegments t kb vb
        (insertRecordSegments t ka va emptyStore))).primary
      (insertRecordSegments t kc vc (insertRecordSegments t kb vb
        (insertRecordSegments t ka va emptyStore))).sub = .ok va := by
    rw [readRecordSegments_insert_frame hac vc _,
      readRecordSegments_insert_frame hab vb _]
    exact readRecordSegments_insert ht va _
  have hn1 : (insertRecordSegments t kc vc (insertRecordSegments t kb vb
      (insertRecordSegments t ka va emptyStore))).primary.head? =
      some (ka, pentryOf t va) := by
    rw [hP3]
    rfl
  have hn2 : nextAfter ka (insertRecordSegments t kc vc
      (insertRecordSegments t kb vb
        (insertRecordSegments t ka va emptyStore))).primary =
      some (kb, pentryOf t vb) := by
    rw [hP3]
    simp [nextAfter]
  have hn3 : nextAfter kb (insertRecordSegments t kc vc
      (insertRecordSegments t kb vb
        (insertRecordSegments t ka va emptyStore))).primary =
      some (kc, pentryOf t vc) := by
    rw [hP3]
    simp [nextAfter, hab]
  have hn4 : nextAfter kc (insertRecordSegments t kc vc
      (insertRecordSegments t kb vb
        (insertRecordSegments t ka va emptyStore))).primary = none := by
    rw [hP3]
    simp [nextAfter, hac, hbc]
  refine ⟨by rw [hi1], by rw [f1, hi2], by rw [f2, hi3], ?_, ?_, ?_, ?_, ?_⟩
  · rw [f3]
    exact sequence_unpositioned hcur3 hn1 hra
  · rw [f3]
    exact @sequence_atKey
      { insertRecordSegments t kc vc (insertRecordSegments t kb vb
          (insertRecordSegments t ka va emptyStore)) with
        cursor := .atKey ka } ka rfl kb (pentryOf t vb) hn2 vb hrb
  · rw [f3]
    exact @sequence_atKey
      { insertRecordSegments t kc vc (insertRecordSegments t kb vb
          (insertRecordSegments t ka va emptyStore)) with
        cursor := .atKey kb } kb rfl kc (pentryOf t vc) hn3 vc hrc
  · rw [f3]
    exact @sequence_atKey_end
      { insertRecordSegments t kc vc (insertRecordSegments t kb vb
          (insertRecordSegments t ka va emptyStore)) with
        cursor := .atKey kc } kc rfl hn4
  · rw [f3]
    exact @sequence_exhausted
      { insertRecordSegments t kc vc (insertRecordSegments t kb vb
          (insertRecordSegments t ka va emptyStore)) with
        cursor := .exhausted } rfl

/-- C4 witness: keys a, b, c with one-byte and two-byte values at
threshold 2. -/
theorem C4_sequencing_witness :
    0 < 2 ∧ ("a" : String) ≠ "b" ∧ ("a" : String) ≠ "c" ∧
    ("b" : String) ≠ "c" ∧
    ((emptyStore.insert 2 "a" [1]).1 = .ok () ∧
      ((emptyStore.insert 2 "a" [1]).2.insert 2 "b" [2, 3]).1 = .ok () ∧
      (((emptyStore.insert 2 "a" [1]).2.insert 2 "b" [2, 3]).2.insert 2 "c"
        [4]).1 = .ok () ∧
      (insThree 2 "a" "b" "c" [1] [2, 3] [4]).sequence =
        (.ok ("a", 1, none),
          { insThree 2 "a" "b" "c" [1] [2, 3] [4] with cursor := .atKey "a" }) ∧
      ({ insThree 2 "a" "b" "c" [1] [2, 3] [4] with
          cursor := .atKey "a" } : DBRecordStore).sequence =
        (.ok ("b", 2, none),
          { insThree 2 "a" "b" "c" [1] [2, 3] [4] with cursor := .atKey "b" }) ∧
      ({ insThree 2 "a" "b" "c" [1] [2, 3] [4] with
          cursor := .atKey "b" } : DBRecordStore).sequence =
        (.ok ("c", 1, none),
          { insThree 2 "a" "b" "c" [1] [2, 3] [4] with cursor := .atKey "c" }) ∧
      ({ insThree 2 "a" "b" "c" [1] [2, 3] [4] with
          cursor := .atKey "c" } : DBRecordStore).sequence =
        (.error .EndOfSequence,
          { insThree 2 "a" "b" "c" [1] [2, 3] [4] with cursor := .exhausted }) ∧
      ({ insThree 2 "a" "b" "c" [1] [2, 3] [4] with
          cursor := .exhausted } : DBRecordStore).sequence =
        (.error .EndOfSequence,
          { insThree 2 "a" "b" "c" [1] [2, 3] [4] with
            cursor := .exhausted })) :=
  ⟨by decide, by decide, by decide, by decide,
    C4_sequencing 2 "a" "b" "c" [1] [2, 3] [4] (by decide) (by decide)
      (by decide) (by decide)⟩

end BiometricEvaluation
